import Mathlib

/-!
Shallow embedding of the core of the `lofi-radio` repository
(`src/mp3parser.ts`, `src/streamEngine.ts`, `src/src/playlistManager.ts`).

Files are modelled as lists of byte values (`List ℕ`, each entry `< 256` in
any real file); reading a byte past end-of-file yields `0`, matching the
zero-filled `Buffer.alloc` buffers that `fs.readSync` partially fills.
JavaScript numbers holding byte values, indices and sizes are modelled as `ℕ`;
the floating-point `frameDurationMs` is modelled as `ℚ` (the computation
`(1152 / sampleRate) * 1000` involves only small integers and one division,
and the spec treats it as exact arithmetic).
-/

namespace LofiRadio

/-- Bitrate lookup table for MPEG1 Layer 3 (`BITRATE_TABLE` in
`src/mp3parser.ts`): `null` entries are `none`. -/
def BITRATE_TABLE : List (Option ℕ) :=
  [none, some 32, some 40, some 48, some 56, some 64, some 80, some 96,
   some 112, some 128, some 160, some 192, some 224, some 256, some 320, none]

/-- Sample rate lookup table for MPEG1 (`SAMPLE_RATE_TABLE` in
`src/mp3parser.ts`). -/
def SAMPLE_RATE_TABLE : List (Option ℕ) :=
  [some 44100, some 48000, some 32000, none]

/-- Result record of `parseFrameHeader` (`Mp3FrameHeader` in `src/types.ts`). -/
structure Mp3FrameHeader where
  frameSize : ℕ
  bitrate : ℕ
  sampleRate : ℕ
  frameDurationMs : ℚ
  deriving DecidableEq

/-- Embedding of `parseFrameHeader` (`src/mp3parser.ts` lines 46-80) on the
four header bytes.  JavaScript `BITRATE_TABLE[i]` with `i` out of range is
`undefined`, and `if (!bitrate)` rejects both `null`/`undefined` and `0`;
since every table entry is a non-zero number this is exactly the `none` test
of `List.getD _ _ none`.  `Math.floor` of the non-negative quotient is `ℕ`
division. -/
def parseFrameHeader (b0 b1 b2 b3 : ℕ) : Option Mp3FrameHeader :=
  if b0 = 0xff ∧ b1 &&& 0xe0 = 0xe0 then
    if (b1 >>> 3) &&& 0x03 = 1 then none
    else if (b1 >>> 1) &&& 0x03 = 0 then none
    else
      match BITRATE_TABLE.getD ((b2 >>> 4) &&& 0x0f) none with
      | none => none
      | some bitrate =>
        match SAMPLE_RATE_TABLE.getD ((b2 >>> 2) &&& 0x03) none with
        | none => none
        | some sampleRate =>
          let padding := (b2 >>> 1) &&& 0x01
          some ⟨144 * bitrate * 1000 / sampleRate + padding, bitrate, sampleRate,
                (1152 / (sampleRate : ℚ)) * 1000⟩
  else none

lemma bitrate_getD_eq_none_iff (i : ℕ) (hi : i ≤ 15) :
    BITRATE_TABLE.getD i none = none ↔ (i = 0 ∨ i = 15) := by
  interval_cases i <;> simp [BITRATE_TABLE]

lemma sampleRate_getD_eq_none_iff (j : ℕ) (hj : j ≤ 3) :
    SAMPLE_RATE_TABLE.getD j none = none ↔ j = 3 := by
  interval_cases j <;> simp [SAMPLE_RATE_TABLE]

lemma sampleRate_getD_mem (j r : ℕ) (h : SAMPLE_RATE_TABLE.getD j none = some r) :
    r = 44100 ∨ r = 48000 ∨ r = 32000 := by
  rcases j with _ | _ | _ | _ | j <;>
    simp_all [SAMPLE_RATE_TABLE, List.getD, List.getElem?_eq_none]

lemma bitrate_getD_mem (i b : ℕ) (h : BITRATE_TABLE.getD i none = some b) :
    b = 32 ∨ b = 40 ∨ b = 48 ∨ b = 56 ∨ b = 64 ∨ b = 80 ∨ b = 96 ∨ b = 112 ∨
    b = 128 ∨ b = 160 ∨ b = 192 ∨ b = 224 ∨ b = 256 ∨ b = 320 := by
  rcases Nat.lt_or_ge i 16 with hi | hi
  · interval_cases i <;> simp_all [BITRATE_TABLE]
  · rw [List.getD_eq_default] at h
    · exact Option.noConfusion h
    · simpa [BITRATE_TABLE] using hi

/-- Every successfully parsed header declares a frame of at least 96 bytes
(the minimum over the bitrate and sample-rate tables, `144·32·1000/48000`). -/
lemma parseFrameHeader_frameSize_ge (b0 b1 b2 b3 : ℕ) (hdr : Mp3FrameHeader)
    (h : parseFrameHeader b0 b1 b2 b3 = some hdr) : 96 ≤ hdr.frameSize := by
  unfold parseFrameHeader at h
  split_ifs at h with hsync hver hlay
  rcases hB : BITRATE_TABLE.getD ((b2 >>> 4) &&& 0x0f) none with _ | bitrate <;>
    rw [hB] at h
  · exact Option.noConfusion h
  rcases hS : SAMPLE_RATE_TABLE.getD ((b2 >>> 2) &&& 0x03) none with _ | sr <;>
    rw [hS] at h
  · exact Option.noConfusion h
  injection h with h
  subst h
  have hb := bitrate_getD_mem _ _ hB
  have hs := sampleRate_getD_mem _ _ hS
  show 96 ≤ 144 * bitrate * 1000 / sr + _
  have h96 : 96 ≤ 144 * bitrate * 1000 / sr := by
    rcases hs with rfl | rfl | rfl <;>
      (rcases hb with rfl | rfl | rfl | rfl | rfl | rfl | rfl | rfl | rfl | rfl |
        rfl | rfl | rfl | rfl <;> decide)
  omega

/-- C1: `parseFrameHeader` returns a header exactly when byte 0 is `0xFF`, the
top 3 bits of byte 1 are set, the version field is not the reserved `01`, the
layer field is not the reserved `00`, the bitrate index is neither 0 nor 15,
and the sample-rate index is not 3; the returned header then has its bitrate
from the MPEG-1 Layer III table, a sample rate in {44100, 48000, 32000},
`frameSize = ⌊144·bitrate·1000 / sampleRate⌋ + padding`, and
`frameDurationMs = 1152·1000 / sampleRate`. -/
theorem parseFrameHeader_characterization (b0 b1 b2 b3 : ℕ) :
    ((parseFrameHeader b0 b1 b2 b3).isSome ↔
      (b0 = 0xff ∧ b1 &&& 0xe0 = 0xe0 ∧ (b1 >>> 3) &&& 0x03 ≠ 1 ∧
       (b1 >>> 1) &&& 0x03 ≠ 0 ∧ (b2 >>> 4) &&& 0x0f ≠ 0 ∧
       (b2 >>> 4) &&& 0x0f ≠ 15 ∧ (b2 >>> 2) &&& 0x03 ≠ 3)) ∧
    (∀ hdr, parseFrameHeader b0 b1 b2 b3 = some hdr →
      BITRATE_TABLE.getD ((b2 >>> 4) &&& 0x0f) none = some hdr.bitrate ∧
      (hdr.sampleRate = 44100 ∨ hdr.sampleRate = 48000 ∨ hdr.sampleRate = 32000) ∧
      hdr.frameSize = 144 * hdr.bitrate * 1000 / hdr.sampleRate + ((b2 >>> 1) &&& 0x01) ∧
      hdr.frameDurationMs = (1152 * 1000 : ℚ) / (hdr.sampleRate : ℚ)) := by
  have hbi : (b2 >>> 4) &&& 0x0f ≤ 15 := Nat.and_le_right
  have hsj : (b2 >>> 2) &&& 0x03 ≤ 3 := Nat.and_le_right
  constructor
  · unfold parseFrameHeader
    split_ifs with hsync hver hlay
    · simp only [Option.isSome_none, Bool.false_eq_true, false_iff]
      rintro ⟨-, -, hv, -⟩
      exact hv hver
    · simp only [Option.isSome_none, Bool.false_eq_true, false_iff]
      rintro ⟨-, -, -, hl, -⟩
      exact hl hlay
    · rcases hB : BITRATE_TABLE.getD ((b2 >>> 4) &&& 0x0f) none with _ | bitrate
      · simp only [hB, Option.isSome_none, Bool.false_eq_true, false_iff]
        rintro ⟨-, -, -, -, hb0, hb15, -⟩
        rcases (bitrate_getD_eq_none_iff _ hbi).mp hB with h | h
        · exact hb0 h
        · exact hb15 h
      · rcases hS : SAMPLE_RATE_TABLE.getD ((b2 >>> 2) &&& 0x03) none with _ | sr
        · simp only [hB, hS, Option.isSome_none, Bool.false_eq_true, false_iff]
          rintro ⟨-, -, -, -, -, -, hs3⟩
          exact hs3 ((sampleRate_getD_eq_none_iff _ hsj).mp hS)
        · simp only [hB, hS, Option.isSome_some, true_iff]
          refine ⟨hsync.1, hsync.2, hver, hlay, ?_, ?_, ?_⟩
          · intro h
            rw [(bitrate_getD_eq_none_iff _ hbi).mpr (Or.inl h)] at hB
            exact Option.noConfusion hB
          · intro h
            rw [(bitrate_getD_eq_none_iff _ hbi).mpr (Or.inr h)] at hB
            exact Option.noConfusion hB
          · intro h
            rw [(sampleRate_getD_eq_none_iff _ hsj).mpr h] at hS
            exact Option.noConfusion hS
    · simp only [Option.isSome_none, Bool.false_eq_true, false_iff]
      rintro ⟨h0, h1, -⟩
      exact hsync ⟨h0, h1⟩
  · intro hdr hhdr
    unfold parseFrameHeader at hhdr
    split_ifs at hhdr with hsync hver hlay
    rcases hB : BITRATE_TABLE.getD ((b2 >>> 4) &&& 0x0f) none with _ | bitrate <;>
      rw [hB] at hhdr
    · exact Option.noConfusion hhdr
    rcases hS : SAMPLE_RATE_TABLE.getD ((b2 >>> 2) &&& 0x03) none with _ | sr <;>
      rw [hS] at hhdr
    · exact Option.noConfusion hhdr
    injection hhdr with hhdr
    subst hhdr
    refine ⟨rfl, sampleRate_getD_mem _ _ hS, rfl, ?_⟩
    show (1152 / (sr : ℚ)) * 1000 = (1152 * 1000 : ℚ) / (sr : ℚ)
    rw [div_mul_eq_mul_div]

/-- Witness for C1 at the concrete header bytes `FF FB 90 00`
(MPEG-1 Layer III, 128 kbps, 44100 Hz, no padding). -/
theorem parseFrameHeader_characterization_witness :
    BITRATE_TABLE.getD ((0x90 >>> 4) &&& 0x0f) none = some 128 ∧
    ((44100 : ℕ) = 44100 ∨ (44100 : ℕ) = 48000 ∨ (44100 : ℕ) = 32000) ∧
    (417 : ℕ) = 144 * 128 * 1000 / 44100 + ((0x90 >>> 1) &&& 0x01) ∧
    ((1152 / (44100 : ℚ)) * 1000) = (1152 * 1000 : ℚ) / ((44100 : ℕ) : ℚ) := by
  have H := (parseFrameHeader_characterization 0xff 0xfb 0x90 0x00).2
    ⟨417, 128, 44100, (1152 / (44100 : ℚ)) * 1000⟩ (by rfl)
  exact H

/-- Byte `i` of a file.  `fs.readSync` into a zero-filled `Buffer.alloc`
buffer leaves bytes past end-of-file at `0`, which `List.getD _ _ 0` models. -/
def byteAt (file : List ℕ) (i : ℕ) : ℕ := file.getD i 0

/-- Embedding of the ID3 test in `skipId3v2Tag` (`src/mp3parser.ts` line 104):
`header.toString('ascii', 0, 3) === 'ID3'`.  Node's `'ascii'` decoding unsets
the highest bit of each byte before decoding as latin1, so the comparison is
on the 7-bit values `b &&& 0x7f`. -/
def id3Detected (file : List ℕ) : Bool :=
  (byteAt file 0 &&& 0x7f == 73) && (byteAt file 1 &&& 0x7f == 68) &&
  (byteAt file 2 &&& 0x7f == 51)

/-- Synchsafe tag length from bytes 6..9 (`src/mp3parser.ts` lines 106-110). -/
def synchsafeSize (file : List ℕ) : ℕ :=
  ((byteAt file 6 &&& 0x7f) <<< 21) ||| ((byteAt file 7 &&& 0x7f) <<< 14) |||
  ((byteAt file 8 &&& 0x7f) <<< 7) ||| (byteAt file 9 &&& 0x7f)

/-- Position of the read cursor after `Mp3FrameReader`'s constructor ran
`skipId3v2Tag` (`src/mp3parser.ts` lines 91-115): `10 + size` when the tag is
detected, otherwise the initial `0`. -/
def initPosition (file : List ℕ) : ℕ :=
  if id3Detected file then 10 + synchsafeSize file else 0

/-- One yielded frame: the `{data, header}` record of `readNextFrame`. -/
structure Mp3Frame where
  data : List ℕ
  header : Mp3FrameHeader
  deriving DecidableEq

/-- Header parse attempt on the 4 bytes peeked at `pos`
(`src/mp3parser.ts` lines 126-134). -/
def headerAt (file : List ℕ) (pos : ℕ) : Option Mp3FrameHeader :=
  parseFrameHeader (byteAt file pos) (byteAt file (pos + 1))
    (byteAt file (pos + 2)) (byteAt file (pos + 3))

/-- The `frameSize`-byte buffer read at `pos` (`src/mp3parser.ts` lines
144-145): `fs.readSync` fills what the file still holds and the rest of the
zero-initialised buffer stays `0`, which `byteAt` models. -/
def frameDataAt (file : List ℕ) (pos n : ℕ) : List ℕ :=
  (List.range n).map fun i => byteAt file (pos + i)

/-- Embedding of `Mp3FrameReader.readNextFrame` (`src/mp3parser.ts` lines
120-150) as a function of the file and the current cursor, returning the
yielded frame and the new cursor.  The `bytesRead < 4` test equals
`file.length - pos < 4` because `fs.readSync` returns
`min 4 (file.length - pos)` when `pos < file.length`. -/
def readNextFrame (file : List ℕ) (pos : ℕ) : Option (Mp3Frame × ℕ) :=
  if h : file.length ≤ pos then none
  else if file.length - pos < 4 then none
  else
    match headerAt file pos with
    | none => readNextFrame file (pos + 1)
    | some hdr =>
        some (⟨frameDataAt file pos hdr.frameSize, hdr⟩, pos + hdr.frameSize)
termination_by file.length - pos
decreasing_by omega

lemma readNextFrame_of_eof (file : List ℕ) (pos : ℕ) (h : file.length ≤ pos) :
    readNextFrame file pos = none := by
  rw [readNextFrame.eq_def, dif_pos h]

lemma readNextFrame_of_short (file : List ℕ) (pos : ℕ)
    (h1 : pos < file.length) (h2 : file.length - pos < 4) :
    readNextFrame file pos = none := by
  rw [readNextFrame.eq_def, dif_neg (by omega), if_pos h2]

lemma readNextFrame_of_resync (file : List ℕ) (pos : ℕ)
    (h1 : pos + 4 ≤ file.length) (h2 : headerAt file pos = none) :
    readNextFrame file pos = readNextFrame file (pos + 1) := by
  rw [readNextFrame.eq_def, dif_neg (by omega), if_neg (by omega), h2]

lemma readNextFrame_of_header (file : List ℕ) (pos : ℕ) (hdr : Mp3FrameHeader)
    (h1 : pos + 4 ≤ file.length) (h2 : headerAt file pos = some hdr) :
    readNextFrame file pos =
      some (⟨frameDataAt file pos hdr.frameSize, hdr⟩, pos + hdr.frameSize) := by
  rw [readNextFrame.eq_def, dif_neg (by omega), if_neg (by omega), h2]

/-- Each successful `readNextFrame` call strictly shrinks the measure
`file.length - pos`: a yielded frame moves the cursor forward. -/
lemma readNextFrame_measure_lt (file : List ℕ) (pos : ℕ) (fr : Mp3Frame)
    (pos' : ℕ) (h : readNextFrame file pos = some (fr, pos')) :
    file.length - pos' < file.length - pos := by
  have aux : ∀ (k p : ℕ) (f : Mp3Frame) (p' : ℕ), file.length - p ≤ k →
      readNextFrame file p = some (f, p') →
      file.length - p' < file.length - p := by
    intro k
    induction k with
    | zero =>
      intro p f p' hk hr
      rw [readNextFrame_of_eof file p (by omega)] at hr
      exact Option.noConfusion hr
    | succ k ih =>
      intro p f p' hk hr
      rcases Nat.lt_or_ge p file.length with hp | hp
      · rcases Nat.lt_or_ge (file.length - p) 4 with h4 | h4
        · rw [readNextFrame_of_short file p hp h4] at hr
          exact Option.noConfusion hr
        · rcases hH : headerAt file p with _ | hdr
          · rw [readNextFrame_of_resync file p (by omega) hH] at hr
            have := ih (p + 1) f p' (by omega) hr
            omega
          · rw [readNextFrame_of_header file p hdr (by omega) hH] at hr
            injection hr with hr
            injection hr with hr1 hr2
            have h96 := parseFrameHeader_frameSize_ge _ _ _ _ _ hH
            omega
      · rw [readNextFrame_of_eof file p hp] at hr
        exact Option.noConfusion hr
  exact aux (file.length - pos) pos fr pos' le_rfl h

/-- The lazy finite sequence of frames the reader yields from cursor `pos`
(repeated calls of `readNextFrame` until it returns `null`). -/
def frameSeq (file : List ℕ) (pos : ℕ) : List Mp3Frame :=
  match h : readNextFrame file pos with
  | none => []
  | some (fr, pos') => fr :: frameSeq file pos'
termination_by file.length - pos
decreasing_by exact readNextFrame_measure_lt file pos fr pos' h

lemma frameSeq_of_none (file : List ℕ) (pos : ℕ)
    (h : readNextFrame file pos = none) : frameSeq file pos = [] := by
  rw [frameSeq.eq_def, h]

lemma frameSeq_of_some (file : List ℕ) (pos : ℕ) (fr : Mp3Frame) (pos' : ℕ)
    (h : readNextFrame file pos = some (fr, pos')) :
    frameSeq file pos = fr :: frameSeq file pos' := by
  rw [frameSeq.eq_def, h]

lemma shiftLeft_lor_eq_add (n x y : ℕ) (hy : y < 2 ^ n) :
    (x <<< n) ||| y = x <<< n + y := by
  induction n generalizing x y with
  | zero =>
    have hy0 : y = 0 := by simpa using hy
    subst hy0
    simp
  | succ n ih =>
    have hpow : 2 ^ (n + 1) = 2 * 2 ^ n := by ring
    have hy2 : y / 2 < 2 ^ n := by omega
    have h1 : x <<< (n + 1) = 2 * (x <<< n) := by
      rw [Nat.shiftLeft_eq, Nat.shiftLeft_eq]
      ring
    have ebf : ∀ a : ℕ, Nat.bit false a = 2 * a := fun _ => rfl
    have ebt : ∀ a : ℕ, Nat.bit true a = 2 * a + 1 := fun _ => rfl
    rcases Nat.mod_two_eq_zero_or_one y with hm | hm
    · have hyd : y = 2 * (y / 2) := by omega
      calc x <<< (n + 1) ||| y
          = Nat.bit false (x <<< n) ||| Nat.bit false (y / 2) := by
            rw [ebf, ebf, ← h1, ← hyd]
        _ = Nat.bit false ((x <<< n) ||| (y / 2)) := by
            rw [Nat.lor_bit]
            rfl
        _ = 2 * (x <<< n + y / 2) := by rw [ebf, ih _ _ hy2]
        _ = x <<< (n + 1) + y := by rw [h1]; omega
    · have hyd : y = 2 * (y / 2) + 1 := by omega
      calc x <<< (n + 1) ||| y
          = Nat.bit false (x <<< n) ||| Nat.bit true (y / 2) := by
            rw [ebf, ebt, ← h1, ← hyd]
        _ = Nat.bit true ((x <<< n) ||| (y / 2)) := by
            rw [Nat.lor_bit]
            rfl
        _ = 2 * (x <<< n + y / 2) + 1 := by rw [ebt, ih _ _ hy2]
        _ = x <<< (n + 1) + y := by rw [h1]; omega

lemma mul_pow_lor_eq_add (n x y : ℕ) (hy : y < 2 ^ n) :
    (x * 2 ^ n) ||| y = x * 2 ^ n + y := by
  simpa [Nat.shiftLeft_eq] using shiftLeft_lor_eq_add n x y hy

/-- The bitwise synchsafe decoding of `skipId3v2Tag` equals the arithmetic
MSB-first concatenation of the four 7-bit values. -/
lemma synchsafeSize_eq (file : List ℕ) :
    synchsafeSize file =
      (byteAt file 6 &&& 0x7f) * 2 ^ 21 + (byteAt file 7 &&& 0x7f) * 2 ^ 14 +
      (byteAt file 8 &&& 0x7f) * 2 ^ 7 + (byteAt file 9 &&& 0x7f) := by
  have m6 : byteAt file 6 &&& 0x7f ≤ 127 := Nat.and_le_right
  have m7 : byteAt file 7 &&& 0x7f ≤ 127 := Nat.and_le_right
  have m8 : byteAt file 8 &&& 0x7f ≤ 127 := Nat.and_le_right
  have m9 : byteAt file 9 &&& 0x7f ≤ 127 := Nat.and_le_right
  unfold synchsafeSize
  simp only [Nat.shiftLeft_eq]
  rw [mul_pow_lor_eq_add 21 _ _ (by norm_num; omega)]
  have e2 : (byteAt file 6 &&& 0x7f) * 2 ^ 21 + (byteAt file 7 &&& 0x7f) * 2 ^ 14 =
      ((byteAt file 6 &&& 0x7f) * 2 ^ 7 + (byteAt file 7 &&& 0x7f)) * 2 ^ 14 := by
    ring
  rw [e2, mul_pow_lor_eq_add 14 _ _ (by norm_num; omega)]
  have e3 : ((byteAt file 6 &&& 0x7f) * 2 ^ 7 + (byteAt file 7 &&& 0x7f)) * 2 ^ 14 +
        (byteAt file 8 &&& 0x7f) * 2 ^ 7 =
      (((byteAt file 6 &&& 0x7f) * 2 ^ 7 + (byteAt file 7 &&& 0x7f)) * 2 ^ 7 +
        (byteAt file 8 &&& 0x7f)) * 2 ^ 7 := by
    ring
  rw [e3, mul_pow_lor_eq_add 7 _ _ (by norm_num; omega)]

lemma byteAt_append_right (pre suf : List ℕ) (i : ℕ) :
    byteAt (pre ++ suf) (pre.length + i) = byteAt suf i := by
  unfold byteAt
  rw [List.getD_append_right pre suf 0 _ (by omega)]
  congr 1
  omega

lemma byteAt_append_left (pre suf : List ℕ) (i : ℕ) (h : i < pre.length) :
    byteAt (pre ++ suf) i = byteAt pre i := by
  unfold byteAt
  rw [List.getD_append pre suf 0 i h]

lemma headerAt_append_right (pre suf : List ℕ) (i : ℕ) :
    headerAt (pre ++ suf) (pre.length + i) = headerAt suf i := by
  unfold headerAt
  have e1 : pre.length + i + 1 = pre.length + (i + 1) := by omega
  have e2 : pre.length + i + 2 = pre.length + (i + 2) := by omega
  have e3 : pre.length + i + 3 = pre.length + (i + 3) := by omega
  rw [e1, e2, e3, byteAt_append_right, byteAt_append_right, byteAt_append_right,
    byteAt_append_right]

lemma frameDataAt_append_right (pre suf : List ℕ) (i n : ℕ) :
    frameDataAt (pre ++ suf) (pre.length + i) n = frameDataAt suf i n := by
  unfold frameDataAt
  apply List.map_congr_left
  intro a _
  have e : pre.length + i + a = pre.length + (i + a) := by omega
  rw [e, byteAt_append_right]

/-- Reading at offset `pre.length + i` of `pre ++ suf` is reading at offset
`i` of `suf`, with the returned cursor shifted back by `pre.length`. -/
lemma readNextFrame_append_right (pre suf : List ℕ) (i : ℕ) :
    readNextFrame (pre ++ suf) (pre.length + i) =
      (readNextFrame suf i).map fun r => (r.1, pre.length + r.2) := by
  have aux : ∀ (k j : ℕ), suf.length - j ≤ k →
      readNextFrame (pre ++ suf) (pre.length + j) =
        (readNextFrame suf j).map fun r => (r.1, pre.length + r.2) := by
    intro k
    induction k with
    | zero =>
      intro j hk
      rw [readNextFrame_of_eof suf j (by omega),
        readNextFrame_of_eof (pre ++ suf) (pre.length + j)
          (by simp only [List.length_append]; omega)]
      rfl
    | succ k ih =>
      intro j hk
      rcases Nat.lt_or_ge j suf.length with hj | hj
      · rcases Nat.lt_or_ge (suf.length - j) 4 with h4 | h4
        · rw [readNextFrame_of_short suf j hj h4,
            readNextFrame_of_short (pre ++ suf) (pre.length + j)
              (by simp only [List.length_append]; omega)
              (by simp only [List.length_append]; omega)]
          rfl
        · rcases hH : headerAt suf j with _ | hdr
          · have hH' : headerAt (pre ++ suf) (pre.length + j) = none := by
              rw [headerAt_append_right]; exact hH
            rw [readNextFrame_of_resync suf j (by omega) hH,
              readNextFrame_of_resync (pre ++ suf) (pre.length + j)
                (by simp only [List.length_append]; omega) hH']
            have e : pre.length + j + 1 = pre.length + (j + 1) := by omega
            rw [e]
            exact ih (j + 1) (by omega)
          · have hH' : headerAt (pre ++ suf) (pre.length + j) = some hdr := by
              rw [headerAt_append_right]; exact hH
            rw [readNextFrame_of_header suf j hdr (by omega) hH,
              readNextFrame_of_header (pre ++ suf) (pre.length + j) hdr
                (by simp only [List.length_append]; omega) hH']
            simp only [Option.map_some']
            rw [frameDataAt_append_right]
            have e : pre.length + j + hdr.frameSize = pre.length + (j + hdr.frameSize) := by
              omega
            rw [e]
      · rw [readNextFrame_of_eof suf j hj,
          readNextFrame_of_eof (pre ++ suf) (pre.length + j)
            (by simp only [List.length_append]; omega)]
        rfl
  exact aux (suf.length - i) i le_rfl

/-- The frame sequence read from offset `pre.length + i` of `pre ++ suf` is
the frame sequence read from offset `i` of `suf`. -/
lemma frameSeq_append_right (pre suf : List ℕ) (i : ℕ) :
    frameSeq (pre ++ suf) (pre.length + i) = frameSeq suf i := by
  have aux : ∀ (k j : ℕ), suf.length - j ≤ k →
      frameSeq (pre ++ suf) (pre.length + j) = frameSeq suf j := by
    intro k
    induction k with
    | zero =>
      intro j hk
      have hn : readNextFrame suf j = none := readNextFrame_of_eof suf j (by omega)
      rw [frameSeq_of_none suf j hn,
        frameSeq_of_none (pre ++ suf) (pre.length + j)
          (by rw [readNextFrame_append_right, hn]; rfl)]
    | succ k ih =>
      intro j hk
      rcases hr : readNextFrame suf j with _ | r
      · rw [frameSeq_of_none suf j hr,
          frameSeq_of_none (pre ++ suf) (pre.length + j)
            (by rw [readNextFrame_append_right, hr]; rfl)]
      · rcases r with ⟨fr, j'⟩
        have hr' : readNextFrame (pre ++ suf) (pre.length + j) =
            some (fr, pre.length + j') := by
          rw [readNextFrame_append_right, hr]; rfl
        rw [frameSeq_of_some suf j fr j' hr,
          frameSeq_of_some (pre ++ suf) (pre.length + j) fr (pre.length + j') hr']
        have := readNextFrame_measure_lt suf j fr j' hr
        rw [ih j' (by omega)]
  exact aux (suf.length - i) i le_rfl

lemma parseFrameHeader_of_no_sync (b0 b1 b2 b3 : ℕ) (h : b0 ≠ 0xff) :
    parseFrameHeader b0 b1 b2 b3 = none := by
  unfold parseFrameHeader
  rw [if_neg]
  rintro ⟨h0, -⟩
  exact h h0

/-- Scanning inside a run of non-`0xFF` garbage bytes advances byte by byte
to the end of the run. -/
lemma readNextFrame_skip_garbage (g suf : List ℕ) (hg : ∀ b ∈ g, b ≠ 0xff) :
    ∀ j, j ≤ g.length →
      readNextFrame (g ++ suf) j = readNextFrame (g ++ suf) g.length := by
  have aux : ∀ (k j : ℕ), g.length - j ≤ k → j ≤ g.length →
      readNextFrame (g ++ suf) j = readNextFrame (g ++ suf) g.length := by
    intro k
    induction k with
    | zero =>
      intro j hk hj
      have : j = g.length := by omega
      rw [this]
    | succ k ih =>
      intro j hk hj
      rcases Nat.lt_or_ge j g.length with hlt | hge
      · have hbyte : byteAt (g ++ suf) j ≠ 0xff := by
          rw [byteAt_append_left g suf j hlt]
          unfold byteAt
          rw [List.getD_eq_getElem g 0 hlt]
          exact hg _ (List.getElem_mem hlt)
        rcases Nat.lt_or_ge ((g ++ suf).length - j) 4 with h4 | h4
        · -- fewer than 4 readable bytes at `j`: even fewer at `g.length`
          rw [readNextFrame_of_short (g ++ suf) j
            (by simp only [List.length_append]; omega) h4]
          rcases Nat.lt_or_ge g.length (g ++ suf).length with hgl | hgl
          · rw [readNextFrame_of_short (g ++ suf) g.length hgl
              (by simp only [List.length_append] at h4 ⊢; omega)]
          · rw [readNextFrame_of_eof (g ++ suf) g.length hgl]
        · have hH : headerAt (g ++ suf) j = none :=
            parseFrameHeader_of_no_sync _ _ _ _ hbyte
          rw [readNextFrame_of_resync (g ++ suf) j (by omega) hH]
          exact ih (j + 1) (by omega) (by omega)
      · have : j = g.length := by omega
        rw [this]
  intro j hj
  exact aux (g.length - j) j le_rfl hj

/-- A byte list that begins with a parseable header whose declared size is the
whole list: the shape of one well-formed frame. -/
def isFrameChunk (f : List ℕ) : Prop :=
  ∃ hdr, headerAt f 0 = some hdr ∧ hdr.frameSize = f.length

lemma headerAt_prefix (f suf : List ℕ) (hdr : Mp3FrameHeader) (h4 : 4 ≤ f.length)
    (h : headerAt f 0 = some hdr) : headerAt (f ++ suf) 0 = some hdr := by
  unfold headerAt at h ⊢
  rw [byteAt_append_left f suf 0 (by omega), byteAt_append_left f suf (0 + 1) (by omega),
    byteAt_append_left f suf (0 + 2) (by omega), byteAt_append_left f suf (0 + 3) (by omega)]
  exact h

lemma frameDataAt_self (f suf : List ℕ) : frameDataAt (f ++ suf) 0 f.length = f := by
  unfold frameDataAt
  apply List.ext_getElem
  · simp
  · intro i h1 h2
    simp only [List.getElem_map, List.getElem_range, Nat.zero_add]
    have hi : i < f.length := by simpa using h1
    rw [byteAt_append_left f suf i hi]
    unfold byteAt
    rw [List.getD_eq_getElem f 0 hi]

/-- At the start of a well-formed frame chunk, the reader yields exactly that
chunk and moves the cursor to its end. -/
lemma readNextFrame_at_frame (f suf : List ℕ) (hdr : Mp3FrameHeader)
    (hh : headerAt f 0 = some hdr) (hlen : hdr.frameSize = f.length) :
    readNextFrame (f ++ suf) 0 = some (⟨f, hdr⟩, f.length) := by
  have h96 := parseFrameHeader_frameSize_ge _ _ _ _ _ hh
  have h4 : 4 ≤ f.length := by omega
  have hH := headerAt_prefix f suf hdr h4 hh
  rw [readNextFrame_of_header (f ++ suf) 0 hdr
    (by simp only [List.length_append]; omega) hH]
  rw [hlen, frameDataAt_self]
  simp

/-- Concrete MPEG-1 Layer III header bytes `FF FB 90 00` (128 kbps, 44100 Hz,
no padding) followed by a zero payload: one well-formed 417-byte frame. -/
def sampleFrame : List ℕ := 0xff :: 0xfb :: 0x90 :: 0x00 :: List.replicate 413 0

/-- The parsed header of `sampleFrame`. -/
def sampleHeader : Mp3FrameHeader := ⟨417, 128, 44100, (1152 / (44100 : ℚ)) * 1000⟩

lemma sampleFrame_headerAt : headerAt sampleFrame 0 = some sampleHeader := by rfl

lemma sampleFrame_length : sampleFrame.length = 417 := by
  unfold sampleFrame
  rw [List.length_cons, List.length_cons, List.length_cons, List.length_cons,
    List.length_replicate]

/-- C6: at every position where the peeked 4 bytes do not parse as a frame
header, the reader advances the cursor by exactly 1 byte and re-attempts; and
for a file assembled from frame chunks each preceded by a run of non-`0xFF`
garbage bytes, the yielded payload sequence is exactly the chunk list —
taking all garbage runs empty, a garbage-littered copy therefore yields the
same frames as the well-formed copy. -/
theorem resync_tolerates_garbage :
    (∀ (file : List ℕ) (pos : ℕ), pos + 4 ≤ file.length → headerAt file pos = none →
      readNextFrame file pos = readNextFrame file (pos + 1)) ∧
    (∀ chunks : List (List ℕ × List ℕ),
      (∀ p ∈ chunks, (∀ b ∈ p.1, b ≠ 0xff) ∧ isFrameChunk p.2) →
      (frameSeq ((chunks.map fun p => p.1 ++ p.2).join) 0).map Mp3Frame.data =
        chunks.map fun p => p.2) := by
  constructor
  · exact fun file pos h1 h2 => readNextFrame_of_resync file pos h1 h2
  · intro chunks
    induction chunks with
    | nil =>
      intro _
      rw [frameSeq_of_none _ _ (readNextFrame_of_eof _ _ (by simp))]
      simp
    | cons p rest ih =>
      intro hp
      obtain ⟨g, f⟩ := p
      obtain ⟨hg, hdr, hh, hlen⟩ := hp (g, f) (List.mem_cons_self _ _)
      have h96 := parseFrameHeader_frameSize_ge _ _ _ _ _ hh
      have hfile : (((g, f) :: rest).map fun p => p.1 ++ p.2).join =
          g ++ (f ++ (rest.map fun p => p.1 ++ p.2).join) := by
        simp [List.append_assoc]
      rw [hfile]
      have h1 : readNextFrame (g ++ (f ++ (rest.map fun p => p.1 ++ p.2).join)) 0 =
          readNextFrame (g ++ (f ++ (rest.map fun p => p.1 ++ p.2).join)) g.length :=
        readNextFrame_skip_garbage g _ hg 0 (Nat.zero_le _)
      have h2 : readNextFrame (g ++ (f ++ (rest.map fun p => p.1 ++ p.2).join)) g.length =
          some (⟨f, hdr⟩, g.length + f.length) := by
        have hshift := readNextFrame_append_right g
          (f ++ (rest.map fun p => p.1 ++ p.2).join) 0
        rw [Nat.add_zero] at hshift
        rw [hshift, readNextFrame_at_frame f _ hdr hh hlen]
        rfl
      rw [frameSeq_of_some _ _ _ _ (h1.trans h2)]
      have h3 : frameSeq (g ++ (f ++ (rest.map fun p => p.1 ++ p.2).join))
            (g.length + f.length) =
          frameSeq ((rest.map fun p => p.1 ++ p.2).join) 0 := by
        have e : g ++ (f ++ (rest.map fun p => p.1 ++ p.2).join) =
            (g ++ f) ++ (rest.map fun p => p.1 ++ p.2).join :=
          (List.append_assoc g f _).symm
        have e2 : g.length + f.length = (g ++ f).length + 0 := by simp
        rw [e, e2, frameSeq_append_right]
      rw [h3]
      simp only [List.map_cons]
      rw [ih (fun q hq => hp q (List.mem_cons_of_mem _ hq))]

/-- Witness for C6: three `0x00` garbage bytes before `sampleFrame` are
skipped and exactly the frame is yielded. -/
theorem resync_tolerates_garbage_witness :
    (frameSeq ((([([0, 0, 0], sampleFrame)]).map fun p => p.1 ++ p.2).join) 0).map
      Mp3Frame.data = [sampleFrame] := by
  have H := resync_tolerates_garbage.2 [([0, 0, 0], sampleFrame)] ?_
  · simpa using H
  · intro p hp
    rw [List.mem_singleton] at hp
    subst hp
    exact ⟨by decide, sampleHeader, sampleFrame_headerAt, sampleFrame_length.symm⟩

/-- C2 counterexample: a file whose first three bytes are `C9 44 33` — not
the ASCII characters `I`, `D`, `3` — is still treated as ID3-tagged, because
Node's `'ascii'` decoding drops the high bit of `0xC9` to give `I`.  The
claim says the cursor stays at 0 for such a file; it moves to 20. -/
theorem id3_ascii_counterexample :
    initPosition [0xc9, 0x44, 0x33, 0, 0, 0, 0, 0, 0, 0x0a] = 20 ∧
    ¬(byteAt [0xc9, 0x44, 0x33, 0, 0, 0, 0, 0, 0, 0x0a] 0 = 73 ∧
      byteAt [0xc9, 0x44, 0x33, 0, 0, 0, 0, 0, 0, 0x0a] 1 = 68 ∧
      byteAt [0xc9, 0x44, 0x33, 0, 0, 0, 0, 0, 0, 0x0a] 2 = 51) := by
  decide

/-- C2 (amended): after construction the cursor is at `10 + s` exactly when
the first three bytes, each with its high bit masked off (Node `'ascii'`
decoding), spell `ID3`, where `s` is the synchsafe integer decoded MSB-first
from the masked bytes 6..9; otherwise the cursor is at 0.  For a file whose
ID3 header declares length 10 followed by 10 arbitrary bytes and a
well-formed frame, the first frame yielded begins at byte offset 20. -/
theorem initPosition_characterization :
    (∀ file : List ℕ, id3Detected file = true →
      initPosition file = 10 + ((byteAt file 6 &&& 0x7f) * 2 ^ 21 +
        (byteAt file 7 &&& 0x7f) * 2 ^ 14 + (byteAt file 8 &&& 0x7f) * 2 ^ 7 +
        (byteAt file 9 &&& 0x7f))) ∧
    (∀ file : List ℕ, id3Detected file = false → initPosition file = 0) ∧
    (∀ (g f : List ℕ) (hdr : Mp3FrameHeader), g.length = 10 →
      headerAt f 0 = some hdr → hdr.frameSize = f.length →
      initPosition ([73, 68, 51, 4, 0, 0, 0, 0, 0, 10] ++ (g ++ f)) = 20 ∧
      readNextFrame ([73, 68, 51, 4, 0, 0, 0, 0, 0, 10] ++ (g ++ f)) 20 =
        some (⟨f, hdr⟩, 20 + f.length)) := by
  refine ⟨?_, ?_, ?_⟩
  · intro file h
    unfold initPosition
    rw [if_pos h, synchsafeSize_eq]
  · intro file h
    unfold initPosition
    rw [if_neg]
    simp [h]
  · intro g f hdr hg10 hh hlen
    have hpre : ∀ i : ℕ, i < 10 →
        byteAt ([73, 68, 51, 4, 0, 0, 0, 0, 0, 10] ++ (g ++ f)) i =
          byteAt [73, 68, 51, 4, 0, 0, 0, 0, 0, 10] i := by
      intro i hi
      exact byteAt_append_left _ _ i (by simp; omega)
    constructor
    · have hid3 : id3Detected ([73, 68, 51, 4, 0, 0, 0, 0, 0, 10] ++ (g ++ f)) = true := by
        unfold id3Detected
        rw [hpre 0 (by omega), hpre 1 (by omega), hpre 2 (by omega)]
        decide
      have hsz : synchsafeSize ([73, 68, 51, 4, 0, 0, 0, 0, 0, 10] ++ (g ++ f)) = 10 := by
        unfold synchsafeSize
        rw [hpre 6 (by omega), hpre 7 (by omega), hpre 8 (by omega), hpre 9 (by omega)]
        decide
      unfold initPosition
      rw [if_pos hid3, hsz]
    · have e : [73, 68, 51, 4, 0, 0, 0, 0, 0, 10] ++ (g ++ f) =
          ([73, 68, 51, 4, 0, 0, 0, 0, 0, 10] ++ g) ++ f := by
        rw [List.append_assoc]
      have hlen20 : ([73, 68, 51, 4, 0, 0, 0, 0, 0, 10] ++ g).length = 20 := by
        simp [hg10]
      rw [e]
      have hshift := readNextFrame_append_right
        ([73, 68, 51, 4, 0, 0, 0, 0, 0, 10] ++ g) f 0
      rw [Nat.add_zero, hlen20] at hshift
      have hf : readNextFrame f 0 = some (⟨f, hdr⟩, f.length) := by
        have := readNextFrame_at_frame f [] hdr hh hlen
        rwa [List.append_nil] at this
      rw [hshift, hf]
      rfl

/-- Witness for C2 at a concrete ID3 header, 10 zero bytes of tag payload and
`sampleFrame`. -/
theorem initPosition_characterization_witness :
    initPosition ([73, 68, 51, 4, 0, 0, 0, 0, 0, 10] ++
      (List.replicate 10 0 ++ sampleFrame)) = 20 ∧
    readNextFrame ([73, 68, 51, 4, 0, 0, 0, 0, 0, 10] ++
      (List.replicate 10 0 ++ sampleFrame)) 20 =
      some (⟨sampleFrame, sampleHeader⟩, 20 + sampleFrame.length) :=
  initPosition_characterization.2.2 (List.replicate 10 0) sampleFrame sampleHeader
    (by simp) sampleFrame_headerAt sampleFrame_length.symm

/-- C10: for a file that starts with the literal bytes `I`, `D`, `3` and whose
declared tag length `s` satisfies `file.length ≤ 10 + s`, the constructor
parks the cursor at `10 + s`, past end of file, and the first `readNextFrame`
call returns `none` — the yielded sequence is empty and no read is attempted. -/
theorem id3_oversized_tag_yields_empty (file : List ℕ)
    (h0 : byteAt file 0 = 73) (h1 : byteAt file 1 = 68) (h2 : byteAt file 2 = 51)
    (hbig : file.length ≤ 10 + synchsafeSize file) :
    initPosition file = 10 + synchsafeSize file ∧
    readNextFrame file (initPosition file) = none ∧
    frameSeq file (initPosition file) = [] := by
  have hid3 : id3Detected file = true := by
    unfold id3Detected
    rw [h0, h1, h2]
    decide
  have hpos : initPosition file = 10 + synchsafeSize file := by
    unfold initPosition
    rw [if_pos hid3]
  refine ⟨hpos, ?_, ?_⟩
  · rw [hpos]
    exact readNextFrame_of_eof file _ (by omega)
  · rw [hpos]
    exact frameSeq_of_none _ _ (readNextFrame_of_eof file _ (by omega))

/-- Witness for C10: a bare 10-byte ID3 header declaring length 0. -/
theorem id3_oversized_tag_yields_empty_witness :
    initPosition [73, 68, 51, 0, 0, 0, 0, 0, 0, 0] =
      10 + synchsafeSize [73, 68, 51, 0, 0, 0, 0, 0, 0, 0] ∧
    readNextFrame [73, 68, 51, 0, 0, 0, 0, 0, 0, 0]
      (initPosition [73, 68, 51, 0, 0, 0, 0, 0, 0, 0]) = none ∧
    frameSeq [73, 68, 51, 0, 0, 0, 0, 0, 0, 0]
      (initPosition [73, 68, 51, 0, 0, 0, 0, 0, 0, 0]) = [] :=
  id3_oversized_tag_yields_empty [73, 68, 51, 0, 0, 0, 0, 0, 0, 0]
    (by decide) (by decide) (by decide) (by decide)

lemma frameSeq_length_le (file : List ℕ) (pos : ℕ) :
    (frameSeq file pos).length ≤ file.length - pos := by
  have aux : ∀ (k p : ℕ), file.length - p ≤ k →
      (frameSeq file p).length ≤ file.length - p := by
    intro k
    induction k with
    | zero =>
      intro p hk
      rw [frameSeq_of_none file p (readNextFrame_of_eof file p (by omega))]
      simp
    | succ k ih =>
      intro p hk
      rcases hr : readNextFrame file p with _ | r
      · rw [frameSeq_of_none file p hr]
        simp
      · rcases r with ⟨fr, p'⟩
        rw [frameSeq_of_some file p fr p' hr]
        have hlt := readNextFrame_measure_lt file p fr p' hr
        have := ih p' (by omega)
        simp only [List.length_cons]
        omega
  exact aux (file.length - pos) pos le_rfl

/-- C9: every `readNextFrame` call either returns `none` (cursor at or past
end of file, or fewer than 4 readable bytes), retries at `pos + 1` (parse
failure), or yields a frame moving the cursor to `pos + frameSize`; iteration
terminates — `frameSeq` is a total function into finite lists, with at most
`file.length - pos` frames — and the zero-byte file yields the empty
sequence. -/
theorem readNextFrame_step_and_termination :
    (∀ (file : List ℕ) (pos : ℕ), file.length ≤ pos → readNextFrame file pos = none) ∧
    (∀ (file : List ℕ) (pos : ℕ), pos < file.length → file.length - pos < 4 →
      readNextFrame file pos = none) ∧
    (∀ (file : List ℕ) (pos : ℕ), pos + 4 ≤ file.length → headerAt file pos = none →
      readNextFrame file pos = readNextFrame file (pos + 1)) ∧
    (∀ (file : List ℕ) (pos : ℕ) (hdr : Mp3FrameHeader), pos + 4 ≤ file.length →
      headerAt file pos = some hdr →
      readNextFrame file pos =
        some (⟨frameDataAt file pos hdr.frameSize, hdr⟩, pos + hdr.frameSize)) ∧
    (∀ (file : List ℕ) (pos : ℕ), (frameSeq file pos).length ≤ file.length - pos) ∧
    frameSeq [] 0 = [] := by
  refine ⟨readNextFrame_of_eof, readNextFrame_of_short,
    readNextFrame_of_resync,
    fun file pos hdr h1 h2 => readNextFrame_of_header file pos hdr h1 h2,
    frameSeq_length_le, ?_⟩
  exact frameSeq_of_none [] 0 (readNextFrame_of_eof [] 0 (by simp))

/-- Witness for C9 at concrete files: end-of-file, a 3-byte tail, a resync
step on zero bytes, and a full frame read on `sampleFrame`. -/
theorem readNextFrame_step_and_termination_witness :
    readNextFrame [0, 0] 5 = none ∧
    readNextFrame [0, 0, 0, 0, 0] 2 = none ∧
    readNextFrame [0, 0, 0, 0, 0] 0 = readNextFrame [0, 0, 0, 0, 0] 1 ∧
    readNextFrame sampleFrame 0 =
      some (⟨frameDataAt sampleFrame 0 sampleHeader.frameSize, sampleHeader⟩,
        0 + sampleHeader.frameSize) ∧
    (frameSeq [0, 0] 0).length ≤ [0, 0].length - 0 ∧
    frameSeq [] 0 = [] :=
  ⟨readNextFrame_step_and_termination.1 [0, 0] 5 (by decide),
   readNextFrame_step_and_termination.2.1 [0, 0, 0, 0, 0] 2 (by decide) (by decide),
   readNextFrame_step_and_termination.2.2.1 [0, 0, 0, 0, 0] 0 (by decide) (by decide),
   readNextFrame_step_and_termination.2.2.2.1 sampleFrame 0 sampleHeader
     (by rw [sampleFrame_length]; omega) sampleFrame_headerAt,
   readNextFrame_step_and_termination.2.2.2.2.1 [0, 0] 0,
   readNextFrame_step_and_termination.2.2.2.2.2⟩

lemma frameDataAt_eq_pad (file : List ℕ) (pos n : ℕ) (hn : file.length - pos ≤ n)
    (hpos : pos ≤ file.length) :
    frameDataAt file pos n =
      file.drop pos ++ List.replicate (n - (file.length - pos)) 0 := by
  apply List.ext_getElem
  · simp only [frameDataAt, List.length_map, List.length_range, List.length_append,
      List.length_drop, List.length_replicate]
    omega
  · intro i h1 h2
    simp only [frameDataAt, List.getElem_map, List.getElem_range]
    rcases Nat.lt_or_ge i (file.length - pos) with hi | hi
    · rw [List.getElem_append_left (by simp only [List.length_drop]; omega)]
      unfold byteAt
      rw [List.getD_eq_getElem file 0 (by omega)]
      rw [List.getElem_drop]
    · rw [List.getElem_append_right (by simp only [List.length_drop]; omega)]
      simp only [List.getElem_replicate]
      unfold byteAt
      rw [List.getD_eq_default]
      omega

/-- C4 counterexample: the 4-byte file holding only the header `FF FB 90 00`
declares `frameSize = 417`; only 4 bytes are readable, yet `readNextFrame`
yields a 417-byte payload (the 4 file bytes zero-padded) instead of failing —
no fatal reader error is raised on a short read. -/
theorem shortRead_counterexample :
    readNextFrame [0xff, 0xfb, 0x90, 0x00] 0 =
      some (⟨[0xff, 0xfb, 0x90, 0x00] ++ List.replicate 413 0, sampleHeader⟩, 417) ∧
    ([0xff, 0xfb, 0x90, 0x00] ++ List.replicate 413 0).length = 417 ∧
    (4 : ℕ) < 417 := by
  refine ⟨?_, by rw [List.length_append, List.length_replicate]; rfl, by norm_num⟩
  have h := readNextFrame_of_header [0xff, 0xfb, 0x90, 0x00] 0 sampleHeader
    (by decide) (by rfl)
  have hpad : frameDataAt [0xff, 0xfb, 0x90, 0x00] 0 sampleHeader.frameSize =
      [0xff, 0xfb, 0x90, 0x00] ++ List.replicate 413 0 := by
    rw [frameDataAt_eq_pad _ _ _ (by decide) (by decide), List.drop_zero]
    congr 1
  rw [h, hpad]
  rfl

/-- C4 (amended): when the declared `frameSize` reaches past end of file (a
short read), `readNextFrame` does not raise: it still yields the frame, whose
payload is the readable file tail zero-padded to exactly `frameSize` bytes,
and it advances the cursor by `frameSize`, after which the next call returns
`none`. -/
theorem shortRead_zero_pads (file : List ℕ) (pos : ℕ) (hdr : Mp3FrameHeader)
    (h4 : pos + 4 ≤ file.length) (hH : headerAt file pos = some hdr)
    (hshort : file.length < pos + hdr.frameSize) :
    readNextFrame file pos =
      some (⟨file.drop pos ++ List.replicate (pos + hdr.frameSize - file.length) 0, hdr⟩,
        pos + hdr.frameSize) ∧
    readNextFrame file (pos + hdr.frameSize) = none := by
  constructor
  · rw [readNextFrame_of_header file pos hdr h4 hH]
    have hpad : frameDataAt file pos hdr.frameSize =
        file.drop pos ++ List.replicate (pos + hdr.frameSize - file.length) 0 := by
      rw [frameDataAt_eq_pad file pos hdr.frameSize (by omega) (by omega)]
      congr 2
      omega
    rw [hpad]
  · exact readNextFrame_of_eof file _ (by omega)

/-- Witness for C4 (amended) at the bare 4-byte header file. -/
theorem shortRead_zero_pads_witness :
    readNextFrame [0xff, 0xfb, 0x90, 0x00] 0 =
      some (⟨[0xff, 0xfb, 0x90, 0x00].drop 0 ++
        List.replicate (0 + sampleHeader.frameSize - [0xff, 0xfb, 0x90, 0x00].length) 0,
        sampleHeader⟩, 0 + sampleHeader.frameSize) ∧
    readNextFrame [0xff, 0xfb, 0x90, 0x00] (0 + sampleHeader.frameSize) = none :=
  shortRead_zero_pads [0xff, 0xfb, 0x90, 0x00] 0 sampleHeader (by decide) (by rfl)
    (by decide)

/-- Track record (`Track` in `src/src/types.ts`) with the fields the playlist
loader populates. -/
structure Track where
  id : String
  path : String
  title : String
  artist : String
  album : String
  deriving DecidableEq

/-- Mutable state of `PlaylistManager` (`src/src/playlistManager.ts`): the
track list and the two cursors. -/
structure PlaylistState where
  tracks : List Track
  nextIndex : ℕ
  playingIndex : ℕ
  deriving DecidableEq

/-- Embedding of `PlaylistManager.getNextTrack` (`src/src/playlistManager.ts`
lines 209-217): the returned track (JS `undefined` is `none`, also for an
out-of-range `nextIndex`) and the successor state. -/
def getNextTrack (s : PlaylistState) : Option Track × PlaylistState :=
  if s.tracks.length = 0 then (none, s)
  else
    (s.tracks[s.nextIndex]?,
     { s with nextIndex := (s.nextIndex + 1) % s.tracks.length })

/-- Repeated `getNextTrack` calls: the list of returned tracks and the final
state after `k` calls. -/
def getNextTrackN (s : PlaylistState) : ℕ → List (Option Track) × PlaylistState
  | 0 => ([], s)
  | k + 1 =>
    ((getNextTrack s).1 :: (getNextTrackN (getNextTrack s).2 k).1,
     (getNextTrackN (getNextTrack s).2 k).2)

/-- JS `new Map(this.tracks.map(t => [t.id, t])).get(id)`: the `Map`
constructor sets entries in order so a later track overwrites an earlier one
with the same id — lookup returns the last track bearing `id`. -/
def trackMapGet (tracks : List Track) (id : String) : Option Track :=
  tracks.reverse.find? fun t => t.id == id

/-- The `for (const id of trackIds)` loop of `reorderTracks`
(`src/src/playlistManager.ts` lines 226-234): build the new order, returning
`none` at the first id that is not in the map (the JS early `return false`). -/
def buildNewOrder (tracks : List Track) : List String → Option (List Track)
  | [] => some []
  | id :: rest =>
    match trackMapGet tracks id with
    | none => none
    | some t =>
      match buildNewOrder tracks rest with
      | none => none
      | some ts => some (t :: ts)

/-- The cursor recomputation of `reorderTracks` (lines 250-261): look up the
previous cursor's track id in the new order via `findIndex`; keep the old
index when the previous cursor was out of range (`undefined` track) or the id
is not found (`findIndex` returned `-1`). -/
def cursorAfter (newOrder : List Track) (old : Option Track) (fallback : ℕ) : ℕ :=
  match old with
  | none => fallback
  | some t =>
    match newOrder.findIdx? (fun u => u.id == t.id) with
    | none => fallback
    | some k => k

/-- Embedding of `PlaylistManager.reorderTracks` (`src/src/playlistManager.ts`
lines 222-266): the returned JS boolean and the successor state. -/
def reorderTracks (s : PlaylistState) (trackIds : List String) : Bool × PlaylistState :=
  match buildNewOrder s.tracks trackIds with
  | none => (false, s)
  | some newOrder =>
    if newOrder.length ≠ s.tracks.length then (false, s)
    else
      (true, ⟨newOrder,
        cursorAfter newOrder s.tracks[s.nextIndex]? s.nextIndex,
        cursorAfter newOrder s.tracks[s.playingIndex]? s.playingIndex⟩)

lemma trackMapGet_id (tracks : List Track) (i : String) (t : Track)
    (h : trackMapGet tracks i = some t) : t.id = i := by
  have := List.find?_some h
  exact eq_of_beq this

lemma trackMapGet_mem (tracks : List Track) (i : String) (t : Track)
    (h : trackMapGet tracks i = some t) : t ∈ tracks := by
  have := List.mem_of_find?_eq_some h
  exact List.mem_reverse.mp this

lemma trackMapGet_eq_none_iff (tracks : List Track) (i : String) :
    trackMapGet tracks i = none ↔ i ∉ tracks.map Track.id := by
  constructor
  · intro h hmem
    obtain ⟨t, ht, rfl⟩ := List.mem_map.mp hmem
    have : (trackMapGet tracks t.id).isSome = true := by
      rw [trackMapGet, List.find?_isSome]
      exact ⟨t, List.mem_reverse.mpr ht, by simp⟩
    rw [h] at this
    exact Bool.noConfusion this
  · intro h
    rcases hf : trackMapGet tracks i with _ | t
    · rfl
    · exact absurd (List.mem_map.mpr ⟨t, trackMapGet_mem _ _ _ hf,
        trackMapGet_id _ _ _ hf⟩) h

lemma buildNewOrder_eq_none_iff (tracks : List Track) (ids : List String) :
    buildNewOrder tracks ids = none ↔ ∃ i ∈ ids, i ∉ tracks.map Track.id := by
  induction ids with
  | nil => simp [buildNewOrder]
  | cons i rest ih =>
    rcases hm : trackMapGet tracks i with _ | t
    · simp only [buildNewOrder, hm]
      exact iff_of_true trivial ⟨i, List.mem_cons_self _ _,
        (trackMapGet_eq_none_iff tracks i).mp hm⟩
    · rcases hb : buildNewOrder tracks rest with _ | l
      · simp only [buildNewOrder, hm, hb]
        refine iff_of_true trivial ?_
        obtain ⟨j, hj, hjm⟩ := (ih).mp hb
        exact ⟨j, List.mem_cons_of_mem _ hj, hjm⟩
      · simp only [buildNewOrder, hm, hb]
        constructor
        · intro h
          exact Option.noConfusion h
        · rintro ⟨j, hj, hjm⟩
          rcases List.mem_cons.mp hj with rfl | hj'
          · exact absurd ((trackMapGet_eq_none_iff tracks j).mpr hjm) (by rw [hm]; simp)
          · exact absurd (ih.mpr ⟨j, hj', hjm⟩) (by rw [hb]; simp)

lemma buildNewOrder_map_id (tracks : List Track) :
    ∀ (ids : List String) (l : List Track), buildNewOrder tracks ids = some l →
      l.map Track.id = ids := by
  intro ids
  induction ids with
  | nil =>
    intro l h
    simp only [buildNewOrder] at h
    injection h with h
    subst h
    rfl
  | cons i rest ih =>
    intro l h
    simp only [buildNewOrder] at h
    rcases hm : trackMapGet tracks i with _ | t <;> rw [hm] at h
    · exact Option.noConfusion h
    rcases hb : buildNewOrder tracks rest with _ | l' <;> rw [hb] at h
    · exact Option.noConfusion h
    injection h with h
    subst h
    simp only [List.map_cons, ih l' hb, trackMapGet_id _ _ _ hm]

lemma buildNewOrder_sub (tracks : List Track) :
    ∀ (ids : List String) (l : List Track), buildNewOrder tracks ids = some l →
      ∀ t ∈ l, t ∈ tracks := by
  intro ids
  induction ids with
  | nil =>
    intro l h
    simp only [buildNewOrder] at h
    injection h with h
    subst h
    simp
  | cons i rest ih =>
    intro l h
    simp only [buildNewOrder] at h
    rcases hm : trackMapGet tracks i with _ | t <;> rw [hm] at h
    · exact Option.noConfusion h
    rcases hb : buildNewOrder tracks rest with _ | l' <;> rw [hb] at h
    · exact Option.noConfusion h
    injection h with h
    subst h
    intro u hu
    rcases List.mem_cons.mp hu with rfl | hu'
    · exact trackMapGet_mem _ _ _ hm
    · exact ih l' hb u hu'

lemma buildNewOrder_length (tracks : List Track) :
    ∀ (ids : List String) (l : List Track), buildNewOrder tracks ids = some l →
      l.length = ids.length := by
  intro ids l h
  have := buildNewOrder_map_id tracks ids l h
  calc l.length = (l.map Track.id).length := by rw [List.length_map]
    _ = ids.length := by rw [this]

lemma findIdx_id_lookup (l : List Track) (i : String) (h : i ∈ l.map Track.id) :
    ∃ k, l.findIdx? (fun t => t.id == i) = some k ∧
      ∃ hk : k < l.length, (l.get ⟨k, hk⟩).id = i := by
  obtain ⟨t, ht, rfl⟩ := List.mem_map.mp h
  have hsome : (l.findIdx? fun u => u.id == t.id).isSome = true := by
    rw [List.findIdx?_isSome, List.any_eq_true]
    exact ⟨t, ht, by simp⟩
  obtain ⟨k, hk⟩ := Option.isSome_iff_exists.mp hsome
  obtain ⟨hlt, hpk, -⟩ := List.findIdx?_eq_some_iff_getElem.mp hk
  exact ⟨k, hk, hlt, eq_of_beq hpk⟩

lemma cursorAfter_spec (newOrder : List Track) (t : Track) (fallback : ℕ)
    (h : t.id ∈ newOrder.map Track.id) :
    ∃ hk : cursorAfter newOrder (some t) fallback < newOrder.length,
      (newOrder.get ⟨cursorAfter newOrder (some t) fallback, hk⟩).id = t.id := by
  obtain ⟨k, hfind, hlt, hid⟩ := findIdx_id_lookup newOrder t.id h
  have hca : cursorAfter newOrder (some t) fallback = k := by
    show (match newOrder.findIdx? (fun u => u.id == t.id) with
      | none => fallback
      | some k => k) = k
    rw [hfind]
  rw [hca]
  exact ⟨hlt, hid⟩

/-- A permutation input makes `buildNewOrder` succeed and the length test
pass, so `reorderTracks` accepts and installs the looked-up order. -/
lemma reorderTracks_perm_accepts (s : PlaylistState) (ids : List String)
    (hperm : ids.Perm (s.tracks.map Track.id)) :
    ∃ newOrder, buildNewOrder s.tracks ids = some newOrder ∧
      newOrder.map Track.id = ids ∧ newOrder.length = s.tracks.length ∧
      reorderTracks s ids = (true, ⟨newOrder,
        cursorAfter newOrder s.tracks[s.nextIndex]? s.nextIndex,
        cursorAfter newOrder s.tracks[s.playingIndex]? s.playingIndex⟩) := by
  rcases hb : buildNewOrder s.tracks ids with _ | newOrder
  · obtain ⟨i, hi, him⟩ := (buildNewOrder_eq_none_iff _ _).mp hb
    exact absurd (hperm.mem_iff.mp hi) him
  · have hmap := buildNewOrder_map_id _ _ _ hb
    have hlen : newOrder.length = s.tracks.length := by
      have h1 := buildNewOrder_length _ _ _ hb
      have h2 := hperm.length_eq
      rw [List.length_map] at h2
      omega
    refine ⟨newOrder, rfl, hmap, hlen, ?_⟩
    simp only [reorderTracks, hb]
    rw [if_neg (by omega)]

/-- C3 counterexample: on the two-track list with ids `1`, `2`, the input
`["1", "1"]` — ids duplicated, id `2` missing, not a permutation — is
accepted: `reorderTracks` returns `true` and replaces the list by two copies
of track 1, where the claim requires a rejecting no-op. -/
theorem reorderTracks_duplicate_counterexample :
    (reorderTracks ⟨[⟨"1", "p1", "a", "x", "y"⟩, ⟨"2", "p2", "b", "x", "y"⟩], 0, 0⟩
        ["1", "1"]).1 = true ∧
    (reorderTracks ⟨[⟨"1", "p1", "a", "x", "y"⟩, ⟨"2", "p2", "b", "x", "y"⟩], 0, 0⟩
        ["1", "1"]).2.tracks =
      [⟨"1", "p1", "a", "x", "y"⟩, ⟨"1", "p1", "a", "x", "y"⟩] ∧
    ¬ (["1", "1"] : List String).Perm
        ([⟨"1", "p1", "a", "x", "y"⟩, ⟨"2", "p2", "b", "x", "y"⟩].map Track.id) := by
  refine ⟨rfl, rfl, ?_⟩
  intro h
  have h2 : ("2" : String) ∈ ["1", "1"] := h.mem_iff.mpr (by simp)
  simp at h2

/-- C3 (amended): `reorderTracks` rejects — returning `false` with the state
unchanged — exactly when some requested id does not occur among the current
track ids or the number of ids differs from the number of tracks; an input
that is a permutation of the current ids is accepted and the track list is
replaced in exactly that order.  (An input whose ids all exist and whose
count matches is accepted even when it duplicates ids, so a non-permutation
can be accepted.) -/
theorem reorderTracks_validation (s : PlaylistState) (ids : List String) :
    ((reorderTracks s ids).1 = false ↔
      (∃ i ∈ ids, i ∉ s.tracks.map Track.id) ∨ ids.length ≠ s.tracks.length) ∧
    ((reorderTracks s ids).1 = false → (reorderTracks s ids).2 = s) ∧
    (ids.Perm (s.tracks.map Track.id) →
      (reorderTracks s ids).1 = true ∧
      (reorderTracks s ids).2.tracks.map Track.id = ids ∧
      ∀ t ∈ (reorderTracks s ids).2.tracks, t ∈ s.tracks) := by
  refine ⟨?_, ?_, ?_⟩
  · rcases hb : buildNewOrder s.tracks ids with _ | newOrder
    · simp only [reorderTracks, hb, true_iff]
      exact Or.inl ((buildNewOrder_eq_none_iff _ _).mp hb)
    · have hlen := buildNewOrder_length _ _ _ hb
      simp only [reorderTracks, hb]
      by_cases hne : newOrder.length ≠ s.tracks.length
      · rw [if_pos hne]
        simp only [true_iff]
        exact Or.inr (by omega)
      · rw [if_neg hne]
        simp only [Bool.true_eq_false, false_iff]
        push_neg
        constructor
        · intro i hi
          by_contra him
          have hnone := (buildNewOrder_eq_none_iff s.tracks ids).mpr ⟨i, hi, him⟩
          rw [hb] at hnone
          exact Option.noConfusion hnone
        · omega
  · intro hfalse
    rcases hb : buildNewOrder s.tracks ids with _ | newOrder
    · simp only [reorderTracks, hb]
    · simp only [reorderTracks, hb] at hfalse ⊢
      by_cases hne : newOrder.length ≠ s.tracks.length
      · rw [if_pos hne]
      · rw [if_neg hne] at hfalse
        exact absurd hfalse (by simp)
  · intro hperm
    obtain ⟨newOrder, hb, hmap, hlen, heq⟩ := reorderTracks_perm_accepts s ids hperm
    rw [heq]
    exact ⟨rfl, hmap, buildNewOrder_sub _ _ _ hb⟩

/-- Witness for C3 (amended) on a concrete two-track state: the permutation
`["2", "1"]` is accepted and installed, and `["3"]` is rejected. -/
theorem reorderTracks_validation_witness :
    ((reorderTracks ⟨[⟨"1", "p1", "a", "x", "y"⟩, ⟨"2", "p2", "b", "x", "y"⟩], 0, 0⟩
        ["3"]).1 = false ↔
      (∃ i ∈ (["3"] : List String),
        i ∉ [⟨"1", "p1", "a", "x", "y"⟩, ⟨"2", "p2", "b", "x", "y"⟩].map Track.id) ∨
      (["3"] : List String).length ≠
        ([⟨"1", "p1", "a", "x", "y"⟩, ⟨"2", "p2", "b", "x", "y"⟩] : List Track).length) ∧
    ((reorderTracks ⟨[⟨"1", "p1", "a", "x", "y"⟩, ⟨"2", "p2", "b", "x", "y"⟩], 0, 0⟩
        ["2", "1"]).1 = true ∧
      (reorderTracks ⟨[⟨"1", "p1", "a", "x", "y"⟩, ⟨"2", "p2", "b", "x", "y"⟩], 0, 0⟩
        ["2", "1"]).2.tracks.map Track.id = ["2", "1"] ∧
      ∀ t ∈ (reorderTracks ⟨[⟨"1", "p1", "a", "x", "y"⟩, ⟨"2", "p2", "b", "x", "y"⟩],
        0, 0⟩ ["2", "1"]).2.tracks,
        t ∈ [⟨"1", "p1", "a", "x", "y"⟩, ⟨"2", "p2", "b", "x", "y"⟩]) :=
  ⟨(reorderTracks_validation ⟨[⟨"1", "p1", "a", "x", "y"⟩,
      ⟨"2", "p2", "b", "x", "y"⟩], 0, 0⟩ ["3"]).1,
   (reorderTracks_validation ⟨[⟨"1", "p1", "a", "x", "y"⟩,
      ⟨"2", "p2", "b", "x", "y"⟩], 0, 0⟩ ["2", "1"]).2.2 (by decide)⟩

/-- C7: under valid cursors, reordering by a permutation of the current ids
preserves the id of the track under `playingCursor` and the id of the track
under `nextCursor`. -/
theorem reorder_preserves_cursor_ids (s : PlaylistState) (ids : List String)
    (hp : s.playingIndex < s.tracks.length) (hn : s.nextIndex < s.tracks.length)
    (hperm : ids.Perm (s.tracks.map Track.id)) :
    ((reorderTracks s ids).2.tracks[(reorderTracks s ids).2.playingIndex]?).map Track.id =
      (s.tracks[s.playingIndex]?).map Track.id ∧
    ((reorderTracks s ids).2.tracks[(reorderTracks s ids).2.nextIndex]?).map Track.id =
      (s.tracks[s.nextIndex]?).map Track.id := by
  obtain ⟨newOrder, hb, hmap, hlen, heq⟩ := reorderTracks_perm_accepts s ids hperm
  rw [heq]
  have hptq : s.tracks[s.playingIndex]? = some s.tracks[s.playingIndex] :=
    List.getElem?_eq_getElem hp
  have hntq : s.tracks[s.nextIndex]? = some s.tracks[s.nextIndex] :=
    List.getElem?_eq_getElem hn
  have hmemp : (s.tracks[s.playingIndex]).id ∈ newOrder.map Track.id := by
    rw [hmap]
    exact hperm.mem_iff.mpr (List.mem_map.mpr ⟨_, s.tracks.getElem_mem hp, rfl⟩)
  have hmemn : (s.tracks[s.nextIndex]).id ∈ newOrder.map Track.id := by
    rw [hmap]
    exact hperm.mem_iff.mpr (List.mem_map.mpr ⟨_, s.tracks.getElem_mem hn, rfl⟩)
  constructor
  · rw [hptq]
    obtain ⟨hk, hid⟩ := cursorAfter_spec newOrder s.tracks[s.playingIndex]
      s.playingIndex hmemp
    rw [List.getElem?_eq_getElem hk]
    simp only [Option.map_some']
    exact congrArg some hid
  · rw [hntq]
    obtain ⟨hk, hid⟩ := cursorAfter_spec newOrder s.tracks[s.nextIndex]
      s.nextIndex hmemn
    rw [List.getElem?_eq_getElem hk]
    simp only [Option.map_some']
    exact congrArg some hid

/-- Witness for C7 on the concrete two-track state reordered by `["2", "1"]`. -/
theorem reorder_preserves_cursor_ids_witness :
    ((reorderTracks ⟨[⟨"1", "p1", "a", "x", "y"⟩, ⟨"2", "p2", "b", "x", "y"⟩], 1, 0⟩
        ["2", "1"]).2.tracks[(reorderTracks ⟨[⟨"1", "p1", "a", "x", "y"⟩,
        ⟨"2", "p2", "b", "x", "y"⟩], 1, 0⟩ ["2", "1"]).2.playingIndex]?).map Track.id =
      (([⟨"1", "p1", "a", "x", "y"⟩, ⟨"2", "p2", "b", "x", "y"⟩] :
        List Track)[(0 : ℕ)]?).map Track.id ∧
    ((reorderTracks ⟨[⟨"1", "p1", "a", "x", "y"⟩, ⟨"2", "p2", "b", "x", "y"⟩], 1, 0⟩
        ["2", "1"]).2.tracks[(reorderTracks ⟨[⟨"1", "p1", "a", "x", "y"⟩,
        ⟨"2", "p2", "b", "x", "y"⟩], 1, 0⟩ ["2", "1"]).2.nextIndex]?).map Track.id =
      (([⟨"1", "p1", "a", "x", "y"⟩, ⟨"2", "p2", "b", "x", "y"⟩] :
        List Track)[(1 : ℕ)]?).map Track.id :=
  reorder_preserves_cursor_ids
    ⟨[⟨"1", "p1", "a", "x", "y"⟩, ⟨"2", "p2", "b", "x", "y"⟩], 1, 0⟩
    ["2", "1"] (by decide) (by decide) (by decide)

lemma getNextTrack_of_ne (s : PlaylistState) (h : s.tracks ≠ []) :
    getNextTrack s = (s.tracks[s.nextIndex]?,
      { s with nextIndex := (s.nextIndex + 1) % s.tracks.length }) := by
  unfold getNextTrack
  rw [if_neg (by simpa using h)]

lemma getNextTrackN_spec (len : ℕ) : ∀ (k : ℕ) (s : PlaylistState),
    s.tracks.length = len → s.tracks ≠ [] → s.nextIndex < s.tracks.length →
    (getNextTrackN s k).1 =
      (List.range k).map (fun i => s.tracks[(s.nextIndex + i) % s.tracks.length]?) ∧
    (getNextTrackN s k).2.tracks = s.tracks ∧
    (getNextTrackN s k).2.nextIndex = (s.nextIndex + k) % s.tracks.length := by
  intro k
  induction k with
  | zero =>
    intro s hlen hne hidx
    refine ⟨by simp [getNextTrackN], rfl, ?_⟩
    show s.nextIndex = (s.nextIndex + 0) % s.tracks.length
    rw [Nat.add_zero, Nat.mod_eq_of_lt hidx]
  | succ k ih =>
    intro s hlen hne hidx
    have hpos : 0 < s.tracks.length := List.length_pos.mpr hne
    have hstep := getNextTrack_of_ne s hne
    have hs' : (getNextTrack s).2 =
        { s with nextIndex := (s.nextIndex + 1) % s.tracks.length } := by
      rw [hstep]
    have htr : ((getNextTrack s).2).tracks = s.tracks := by rw [hs']
    obtain ⟨ih1, ih2, ih3⟩ := ih (getNextTrack s).2
      (by rw [htr, hlen]) (by rw [htr]; exact hne)
      (by rw [hs']; exact Nat.mod_lt _ hpos)
    refine ⟨?_, ?_, ?_⟩
    · show (getNextTrack s).1 :: (getNextTrackN (getNextTrack s).2 k).1 = _
      have hhead : (getNextTrack s).1 = s.tracks[(s.nextIndex + 0) % s.tracks.length]? := by
        rw [hstep]
        show s.tracks[s.nextIndex]? = _
        rw [Nat.add_zero, Nat.mod_eq_of_lt hidx]
      have htail : (getNextTrackN (getNextTrack s).2 k).1 =
          (List.range k).map
            (fun i => s.tracks[(s.nextIndex + (i + 1)) % s.tracks.length]?) := by
        rw [ih1]
        apply List.map_congr_left
        intro a _
        rw [hs']
        show s.tracks[((s.nextIndex + 1) % s.tracks.length + a) % s.tracks.length]? =
          s.tracks[(s.nextIndex + (a + 1)) % s.tracks.length]?
        rw [Nat.mod_add_mod]
        have e : s.nextIndex + 1 + a = s.nextIndex + (a + 1) := by omega
        rw [e]
      rw [hhead, htail, List.range_succ_eq_map, List.map_cons, List.map_map]
      rfl
    · show (getNextTrackN (getNextTrack s).2 k).2.tracks = s.tracks
      rw [ih2, htr]
    · show (getNextTrackN (getNextTrack s).2 k).2.nextIndex = _
      rw [ih3, hs']
      show ((s.nextIndex + 1) % s.tracks.length + k) % s.tracks.length = _
      rw [Nat.mod_add_mod]
      have e : s.nextIndex + 1 + k = s.nextIndex + (k + 1) := by omega
      rw [e]

/-- C8: `getNextTrack` returns `none` exactly when the track list is empty
(given the maintained invariant that the cursor is in range whenever the list
is non-empty); on a non-empty list it returns `tracks[nextIndex]` and advances
the cursor to `(nextIndex + 1) % length`, the invariant is preserved, and `k`
successive calls return `tracks[(nextIndex + i) % length]` for `i < k` —
cycling through the list in order — leaving the cursor at
`(nextIndex + k) % length`, a valid index. -/
theorem getNextTrack_cycles (s : PlaylistState)
    (hinv : s.tracks = [] ∨ s.nextIndex < s.tracks.length) :
    ((getNextTrack s).1 = none ↔ s.tracks = []) ∧
    (s.tracks ≠ [] →
      (getNextTrack s).1 = s.tracks[s.nextIndex]? ∧
      (getNextTrack s).2.nextIndex = (s.nextIndex + 1) % s.tracks.length ∧
      (getNextTrack s).2.tracks = s.tracks) ∧
    ((getNextTrack s).2.tracks = [] ∨
      (getNextTrack s).2.nextIndex < (getNextTrack s).2.tracks.length) ∧
    (s.tracks ≠ [] → ∀ k : ℕ,
      (getNextTrackN s k).1 =
        (List.range k).map (fun i => s.tracks[(s.nextIndex + i) % s.tracks.length]?) ∧
      (getNextTrackN s k).2.nextIndex = (s.nextIndex + k) % s.tracks.length ∧
      (getNextTrackN s k).2.nextIndex < s.tracks.length) := by
  by_cases hne : s.tracks = []
  · have hempty : getNextTrack s = (none, s) := by
      unfold getNextTrack
      rw [if_pos (by simp [hne])]
    refine ⟨by rw [hempty]; simpa using hne, fun h => absurd hne h, ?_, fun h => absurd hne h⟩
    rw [hempty]
    exact Or.inl hne
  · have hidx : s.nextIndex < s.tracks.length := hinv.resolve_left hne
    have hpos : 0 < s.tracks.length := List.length_pos.mpr hne
    have hstep := getNextTrack_of_ne s hne
    refine ⟨?_, fun _ => ⟨by rw [hstep], by rw [hstep], by rw [hstep]⟩, ?_, fun _ k => ?_⟩
    · rw [hstep]
      simp only [List.getElem?_eq_getElem hidx]
      constructor
      · intro h
        exact Option.noConfusion h
      · intro h
        exact absurd h hne
    · rw [hstep]
      exact Or.inr (Nat.mod_lt _ hpos)
    · obtain ⟨h1, h2, h3⟩ := getNextTrackN_spec s.tracks.length k s rfl hne hidx
      exact ⟨h1, h3, by rw [h3]; exact Nat.mod_lt _ hpos⟩

/-- Witness for C8 on a concrete one-track playlist: three calls return the
track three times and the cursor stays at 0. -/
theorem getNextTrack_cycles_witness :
    ((getNextTrack ⟨[⟨"1", "p1", "a", "x", "y"⟩], 0, 0⟩).1 = none ↔
      ([⟨"1", "p1", "a", "x", "y"⟩] : List Track) = []) ∧
    (getNextTrackN ⟨[⟨"1", "p1", "a", "x", "y"⟩], 0, 0⟩ 3).1 =
      (List.range 3).map (fun i =>
        ([⟨"1", "p1", "a", "x", "y"⟩] : List Track)[(0 + i) % 1]?) := by
  have H := getNextTrack_cycles ⟨[⟨"1", "p1", "a", "x", "y"⟩], 0, 0⟩
    (Or.inr (by decide))
  exact ⟨H.1, (H.2.2.2 (by decide) 3).1⟩

/-- Outcome of one frame iteration inside `streamTrack`'s while loop: either
every call in the iteration (broadcast, `timer.wait`, `readNextFrame`)
returns, or one of them throws. -/
inductive FrameStep where
  | ok
  | err
  deriving DecidableEq

/-- Whether the while loop of `streamTrack` (`src/streamEngine.ts` lines
131-151) exits by an exception: the steps run left to right and the first
`err` aborts the loop. -/
def loopRaises : List FrameStep → Bool
  | [] => false
  | .ok :: rest => loopRaises rest
  | .err :: _ => true

/-- Model of one `streamTrack` call (`src/streamEngine.ts` lines 115-155) as
a function of its frame iteration outcomes.  Returns (completed normally,
reader closed).  `reader.close()` on line 153 sits after the while loop with
no try/finally around it, so it runs exactly when no iteration throws; an
exception propagates out of `streamTrack` before the close call. -/
def streamTrack (steps : List FrameStep) : Bool × Bool :=
  if loopRaises steps then (false, false) else (true, true)

/-- Observable effect of one iteration of the `while (this.isRunning)` loop
in `StreamEngine.start` (`src/streamEngine.ts` lines 179-185) around
`streamTrack`: whether the reader was closed, how long the iteration slept
after the catch, and whether the loop continues. -/
structure SchedulerIterationEffect where
  readerClosed : Bool
  sleptMs : ℕ
  returnsToTop : Bool
  deriving DecidableEq

/-- Embedding of the `try { await this.streamTrack(track) } catch (err) {...}`
iteration of `StreamEngine.start`: a thrown per-track error is caught and
logged, the loop sleeps 1000 ms and continues; a normal return continues
immediately. -/
def startIteration (steps : List FrameStep) : SchedulerIterationEffect :=
  match streamTrack steps with
  | (true, closed) => ⟨closed, 0, true⟩
  | (false, closed) => ⟨closed, 1000, true⟩

/-- C5: evaluation of the Scheduler model at a clean track and at a track
whose second frame iteration raises.  On the error path the code does log,
sleep 1 s and return to the top of the loop, but `reader.close()` is never
reached — the call is not protected by a try/finally, so the file descriptor
opened for the track remains open, contradicting the claim. -/
theorem streamTrack_fd_leak_on_error :
    (startIteration [.ok, .ok]).readerClosed = true ∧
    (startIteration [.ok, .err]).readerClosed = false ∧
    (startIteration [.ok, .err]).sleptMs = 1000 ∧
    (startIteration [.ok, .err]).returnsToTop = true := by
  decide

end LofiRadio
